import Mathlib

/-!
Shallow embedding of the shape inference engine of
src/torch_glow/src/ShapeInferenceEngine.cpp and verification of its
specification.  Tensor shapes are lists of mathematical integers
(the C++ code uses int64_t; none of the verified facts depend on
64-bit wraparound).  C++ truncated division and remainder are
modelled by Int.tdiv and Int.tmod.  An out-of-bounds std::vector
access (undefined behavior in the source) is modelled by the
distinguished result Res.fatal, as is a failed CHECK assertion.
-/

namespace GlowSI

/-- Result of a rule or of the engine: a value, a recoverable Error
return, or a fatal event (undefined behavior such as an out-of-bounds
vector access, or a CHECK failure). -/
inductive Res (α : Type) where
  | ok (a : α)
  | err (msg : String)
  | fatal
deriving DecidableEq, Repr

instance : Monad Res where
  pure := Res.ok
  bind m f :=
    match m with
    | Res.ok a => f a
    | Res.err s => Res.err s
    | Res.fatal => Res.fatal

/-- VariableMeta of the source: a shape together with the optional
list of known integer values. -/
structure VariableMeta where
  shape : List Int
  intValue : List Int
deriving DecidableEq, Repr

/-- MetaStack of the source: the metadata of the inputs of one node. -/
abbrev MetaStack : Type := List VariableMeta

/-- Reading l at a signed index, as the C++ code reads a std::vector
with an int64 index converted to size_t: in range gives the element,
anything else is an out-of-bounds access, hence fatal. -/
def getI (l : List Int) (i : Int) : Res Int :=
  if h : 0 ≤ i ∧ i.toNat < l.length then Res.ok (l.get ⟨i.toNat, h.2⟩) else Res.fatal

/-- C++ int64 truncated division, with division by zero being
undefined behavior in the source, hence fatal. -/
def tdivC (a b : Int) : Res Int :=
  if b = 0 then Res.fatal else Res.ok (Int.tdiv a b)

/-- C++ int64 remainder, with a zero divisor being undefined behavior
in the source, hence fatal. -/
def tmodC (a b : Int) : Res Int :=
  if b = 0 then Res.fatal else Res.ok (Int.tmod a b)

/-- Body of the broadcasting loop of binaryOp for loop index i, which
the source writes into shape at position dim - 1 - i.  Mirrors the
short-circuit order of the two || conditions in the source. -/
def broadcastDim (t0 t1 : List Int) (i : Nat) : Res Int :=
  let d0 := t0.length
  let d1 := t1.length
  if i ≥ d0 then getI t1 ((d1 : Int) - 1 - (i : Int))
  else do
    let a ← getI t0 ((d0 : Int) - 1 - (i : Int))
    if a = 1 then getI t1 ((d1 : Int) - 1 - (i : Int))
    else if i ≥ d1 then pure a
    else do
      let b ← getI t1 ((d1 : Int) - 1 - (i : Int))
      if b = 1 then pure a
      else if b ≠ a then
        Res.err "The size of tensor a must match the size of tensor b at non-singleton dimension 1."
      else pure b

/-- Runs broadcastDim for loop indices i, i+1, ... while fuel lasts,
collecting the produced dimensions in loop order (the source stores
them from the trailing end of the result shape). -/
def broadcastGo (t0 t1 : List Int) : Nat → Nat → Res (List Int)
  | _, 0 => Res.ok []
  | i, fuel + 1 => do
    let v ← broadcastDim t0 t1 i
    let rest ← broadcastGo t0 t1 (i + 1) fuel
    pure (v :: rest)

/-- ShapeInferenceEngine::binaryOp of the source. -/
def binaryOp (variableMetas : MetaStack) : Res (List Int) :=
  if variableMetas.length ≠ 2 ∧ variableMetas.length ≠ 3 then
    Res.err "Expected two or three inputs shapes of this operation."
  else
    match variableMetas with
    | t0m :: t1m :: _ =>
      let t0 := t0m.shape
      let t1 := t1m.shape
      if t1.length = 1 then Res.ok t0
      else do
        let dims ← broadcastGo t0 t1 0 (max t0.length t1.length)
        pure dims.reverse
    | _ => Res.err "Expected two or three inputs shapes of this operation."

/-- ShapeInferenceEngine::mm of the source. -/
def mm (variableMetas : MetaStack) : Res (List Int) :=
  if variableMetas.length ≠ 2 then
    Res.err "Expected two inputs shapes of this operation."
  else
    match variableMetas.map VariableMeta.shape with
    | [[a0, a1], [b0, b1]] =>
      if a1 ≠ b0 then
        Res.err "The size of tensor a at dimension 1 must match the size of tensor b at dimension 0."
      else Res.ok [a0, b1]
    | _ => Res.err "Expected 2-dimensional tensor."

/-- ShapeInferenceEngine::bmm of the source. -/
def bmm (variableMetas : MetaStack) : Res (List Int) :=
  if variableMetas.length ≠ 2 then
    Res.err "Expected two inputs shapes of this operation."
  else
    match variableMetas.map VariableMeta.shape with
    | [[a0, a1, a2], [b0, b1, b2]] =>
      if a0 ≠ b0 then Res.err "Expected tensors to have same size at dimension 0"
      else if a2 ≠ b1 then
        Res.err "The size of tensor a at dimension 2 must match the size of tensor b at dimension 1"
      else Res.ok [a0, a1, b2]
    | _ => Res.err "Expected 3-dimensional tensor."

/-- ShapeInferenceEngine::addmm of the source.  In the scalar branch
the source passes variableMetas[1] itself (shape and intValue) to
binaryOp; in the other branch it passes a fresh VariableMeta holding
the mm result shape and an empty intValue. -/
def addmm (variableMetas : MetaStack) : Res (List Int) :=
  if variableMetas.length < 3 then
    Res.err "Expected at least three inputs shapes."
  else
    match variableMetas with
    | t0 :: t1 :: t2 :: _ =>
      if t2.shape.length = 1 then binaryOp [t0, t1]
      else do
        let s ← mm [t1, t2]
        binaryOp [t0, ⟨s, []⟩]
    | _ => Res.err "Expected at least three inputs shapes."

/-- Negative-dimension normalization used by several rules: a negative
axis has the rank added. -/
def normDim (dim rank : Int) : Int :=
  if dim < 0 then dim + rank else dim

/-- ShapeInferenceEngine::constantChunk of the source. -/
def constantChunk (variableMetas : MetaStack) (chunks dim : Int) : Res (List (List Int)) :=
  if variableMetas.length ≠ 1 then Res.err "Expected one input."
  else
    match variableMetas with
    | [m] =>
      let rank : Int := m.shape.length
      let dim1 := normDim dim rank
      if ¬(dim1 < rank ∧ 0 ≤ dim1) then Res.err "Dim value is out of range."
      else do
        let size ← getI m.shape dim1
        let c ← tdivC (size + chunks - 1) chunks
        let r := size - c * (chunks - 1)
        pure ((List.range chunks.toNat).map
          (fun i => m.shape.set dim1.toNat (if (i : Int) = chunks - 1 then r else c)))
    | _ => Res.err "Expected one input."

/-- Inner loop of fusedConcat over one further input: position j equal
to the concat dim accumulates, every other position must match. -/
def concatOne (dim1 : Nat) : Nat → List Int → List Int → Res (List Int)
  | _, [], [] => Res.ok []
  | j, a :: as, b :: bs =>
    if j = dim1 then do
      let t ← concatOne dim1 (j + 1) as bs
      pure ((a + b) :: t)
    else if a ≠ b then Res.err "Sizes of tensors must match except in dimension."
    else do
      let t ← concatOne dim1 (j + 1) as bs
      pure (a :: t)
  | _, _, _ => Res.fatal

/-- Outer loop of fusedConcat over the inputs after the first: each
must have the same rank as the first, then its dimensions are folded
into the accumulated shape. -/
def concatFold (dim1 : Nat) (inDims : Nat) : List VariableMeta → List Int → Res (List Int)
  | [], shape => Res.ok shape
  | m :: rest, shape =>
    if inDims ≠ m.shape.length then
      Res.err "All inputs must have the same number of dimensions."
    else do
      let s ← concatOne dim1 0 shape m.shape
      concatFold dim1 inDims rest s

/-- ShapeInferenceEngine::fusedConcat of the source. -/
def fusedConcat (variableMetas : MetaStack) (dim : Int) : Res (List Int) :=
  match variableMetas with
  | [] => Res.err "Expected at least 1 inputs."
  | [m] => Res.ok m.shape
  | m0 :: rest =>
    let inDims : Int := m0.shape.length
    let dim1 := normDim dim inDims
    if ¬(dim1 < inDims ∧ 0 ≤ dim1) then Res.err "Dim value is out of range."
    else concatFold dim1.toNat m0.shape.length rest m0.shape

/-- ShapeInferenceEngine::slice of the source. -/
def slice (variableMetas : MetaStack) : Res (List Int) :=
  if variableMetas.length ≠ 5 then Res.err "Expected 5 inputs."
  else
    match variableMetas with
    | [m0, m1, m2, m3, m4] =>
      if m1.shape.length ≠ 1 then Res.err "Expected int in Slice."
      else if m2.shape.length ≠ 1 then Res.err "Expected int in Slice."
      else if m3.shape.length ≠ 1 then Res.err "Expected int in Slice."
      else if m4.shape.length ≠ 1 then Res.err "Expected int in Slice."
      else do
        let dim ← getI m1.intValue 0
        let start ← getI m2.intValue 0
        let en ← getI m3.intValue 0
        let step ← getI m4.intValue 0
        let inDims ← getI m0.shape dim
        let shape := m0.shape
        if start ≥ inDims ∨ en ≤ -inDims then pure (shape.set dim.toNat 0)
        else
          let start1 :=
            if start ≤ -inDims then 0
            else if start > -inDims ∧ start < 0 then start + inDims
            else start
          let en1 :=
            if en > inDims then inDims
            else if en > -inDims ∧ en < 0 then en + inDims
            else en
          if start1 ≥ en1 then pure (shape.set dim.toNat 0)
          else do
            let l0 ← tdivC (en1 - start1) step
            let md ← tmodC (en1 - start1) step
            pure (shape.set dim.toNat (if md ≠ 0 then l0 + 1 else l0))
    | _ => Res.err "Expected 5 inputs."

/-- Loop of reshape over the target entries: accumulates the product
s1 (including any -1 factors, as the source does), records the index
of the first -1, and returns an Error at a second -1. -/
def reshapeLoop : List Int → Int → Int → Int → Res (Int × Int)
  | [], s1, negIndex, _ => Res.ok (s1, negIndex)
  | v :: rest, s1, negIndex, i =>
    let s1n := s1 * v
    if v = -1 then
      if negIndex = -1 then reshapeLoop rest s1n i (i + 1)
      else Res.err "Unable to infer undetermined dimension"
    else reshapeLoop rest s1n negIndex (i + 1)

/-- ShapeInferenceEngine::reshape of the source. -/
def reshape (variableMetas : MetaStack) : Res (List Int) :=
  if variableMetas.length ≠ 2 then Res.err "Expected two inputs shapes."
  else
    match variableMetas with
    | [m0, m1] =>
      let s0 := m0.shape.prod
      do
        let p ← reshapeLoop m1.intValue 1 (-1) 0
        let md ← tmodC s0 p.1
        if md ≠ 0 then Res.err "Reshape size is invalid for input size."
        else
          if p.2 ≠ -1 then do
            let q ← tdivC (-s0) p.1
            pure (m1.intValue.set p.2.toNat q)
          else pure m1.intValue
    | _ => Res.err "Expected two inputs shapes."

/-- Loop of permute over the shuffle entries: each must be a
non-negative axis below the input rank, and selects that input
dimension. -/
def permuteLoop (shape0 : List Int) (inDims : Int) : List Int → Res (List Int)
  | [] => Res.ok []
  | d :: rest =>
    if ¬(d ≥ 0) then Res.err "Negative shuffle dimensions not supported by Glow yet."
    else if ¬(d < inDims) then
      Res.err "All shuffle dimensions must be less than the rank of the input."
    else do
      let v ← getI shape0 d
      let t ← permuteLoop shape0 inDims rest
      pure (v :: t)

/-- ShapeInferenceEngine::permute of the source. -/
def permute (variableMetas : MetaStack) : Res (List Int) :=
  if variableMetas.length ≠ 2 then Res.err "Expected two inputs shapes."
  else
    match variableMetas with
    | [m0, m1] =>
      let inDims : Int := m0.shape.length
      if inDims ≠ m1.intValue.length then
        Res.err "Shuffle for permute must has the same number of dimensions as the input tensor."
      else permuteLoop m0.shape inDims m1.intValue
    | _ => Res.err "Expected two inputs shapes."

/-- Loop of listConstruct: every input must have a shape of length 1
and contributes the first entry of its intValue (an out-of-bounds
read when that vector is empty). -/
def listConstructLoop : List VariableMeta → Res (List Int)
  | [] => Res.ok []
  | m :: rest =>
    if m.shape.length ≠ 1 then Res.err "Expected int type input in listConstruct."
    else do
      let v ← getI m.intValue 0
      let t ← listConstructLoop rest
      pure (v :: t)

/-- ShapeInferenceEngine::listConstruct of the source. -/
def listConstruct (variableMetas : MetaStack) : Res (List Int) :=
  if variableMetas.length < 1 then Res.err "Expected at least 1 inputs."
  else listConstructLoop variableMetas

/-- Insertion of a value into a list at a position, mirroring
std::vector::insert at begin() + position. -/
def insertAt : Nat → Int → List Int → List Int
  | 0, v, l => v :: l
  | _ + 1, v, [] => [v]
  | n + 1, v, x :: xs => x :: insertAt n v xs

/-- Loop of fusedStack: every input must have the same shape as the
first. -/
def stackCheck (shape0 : List Int) : List VariableMeta → Res Unit
  | [] => Res.ok ()
  | m :: rest =>
    if m.shape ≠ shape0 then Res.err "All inputs must have same shape"
    else stackCheck shape0 rest

/-- ShapeInferenceEngine::fusedStack of the source. -/
def fusedStack (variableMetas : MetaStack) (dim : Int) : Res (List Int) :=
  match variableMetas with
  | [] => Res.err "Expected at least 1 inputs."
  | [m] => Res.ok m.shape
  | m0 :: _ =>
    let inDims : Int := m0.shape.length
    let dim1 := if dim < 0 then dim + inDims + 1 else dim
    if ¬(dim1 < inDims + 1 ∧ 0 ≤ dim1) then
      Res.err "Dim must be less than the rank of inputs plus the added dimension"
    else do
      let _ ← stackCheck m0.shape variableMetas
      pure (insertAt dim1.toNat (variableMetas.length : Int) m0.shape)

/-- ShapeInferenceEngine::embeddingBag of the source.  hasEndOffset is
the run-wide mode flag hasEndOffset_. -/
def embeddingBag (hasEndOffset : Bool) (variableMetas : MetaStack) : Res (List Int) :=
  if variableMetas.length ≠ 8 then Res.err "Expected 8 inputs."
  else
    match variableMetas with
    | m0 :: m1 :: m2 :: _ =>
      if m1.shape.length = 1 then
        if m2.shape.length ≠ 1 then Res.err "Expected 1D offset."
        else do
          let o0 ← getI m2.shape 0
          let w1 ← getI m0.shape 1
          pure [o0 - (if hasEndOffset then 1 else 0), w1]
      else if m1.shape.length = 2 then do
        let i0 ← getI m1.shape 0
        let w1 ← getI m0.shape 1
        pure [i0, w1]
      else Res.err "Only support 1D and 2D Input in Embedding bag."
    | _ => Res.err "Expected 8 inputs."

/-- ShapeInferenceEngine::embeddingBagByteRowwiseOffsets of the
source. -/
def embeddingBagByteRowwiseOffsets (hasEndOffset : Bool) (variableMetas : MetaStack) :
    Res (List Int) :=
  if variableMetas.length ≠ 8 then Res.err "Expected 8 inputs."
  else
    match variableMetas with
    | m0 :: _ :: m2 :: _ => do
      let o0 ← getI m2.shape 0
      let w1 ← getI m0.shape 1
      pure [o0 - (if hasEndOffset then 1 else 0), w1 - 8]
    | _ => Res.err "Expected 8 inputs."

/-- Declared output type of a prim::Constant node, together with the
literal it carries when that matters for the rule: an integer or
boolean literal value, or the dimension list of a tensor literal. -/
inductive ConstType where
  | float
  | int (v : Int)
  | bool (v : Int)
  | none
  | tensor (dims : List Int)
deriving DecidableEq, Repr

/-- ShapeInferenceEngine::primConstant of the source: a float gives
the value 1, an integer or boolean gives its literal, a None gives
the empty vector, a tensor gives its dimension list. -/
def primConstant (ty : ConstType) : Res (List Int) :=
  match ty with
  | ConstType.float => Res.ok [1]
  | ConstType.int v => Res.ok [v]
  | ConstType.bool v => Res.ok [v]
  | ConstType.none => Res.ok []
  | ConstType.tensor dims => Res.ok dims

/-- Operator tag of a node, with the node-local attributes each rule
reads from the node itself. -/
inductive OpKind where
  | fusedStackOp (dim : Int)
  | embeddingBagByteRowwiseOffsetsOp
  | primConstantOp (ty : ConstType)
  | tanhOp
  | reluOp
  | sigmoidOp
  | subOp
  | powOp
  | mulOp
  | addOp
  | mmOp
  | addmmOp
  | bmmOp
  | fusedConcatOp (dim : Int)
  | constantChunkOp (chunks dim : Int)
  | listConstructOp
  | sliceOp
  | reshapeOp
  | permuteOp
  | embeddingBagOp
  | unknownOp (tag : String)
deriving DecidableEq, Repr

/-- A graph node: operator tag plus the identities of its input and
output values. -/
structure Node where
  kind : OpKind
  inputs : List Nat
  outputs : List Nat
deriving DecidableEq, Repr

/-- A graph: input values, output values and nodes in dependency
order. -/
structure Graph where
  inputs : List Nat
  outputs : List Nat
  nodes : List Node
deriving DecidableEq, Repr

/-- The value metadata store shapeMap_. -/
def ShapeMap : Type := Nat → Option VariableMeta

/-- The empty store. -/
def emptyMap : ShapeMap := fun _ => Option.none

/-- Store update. -/
def update (m : ShapeMap) (k : Nat) (v : VariableMeta) : ShapeMap :=
  fun x => if x = k then Option.some v else m x

/-- ShapeInferenceEngine::getNodeInputShape of the source: resolves
every input value in the store; a missing entry fails the CHECK. -/
def lookupAll (m : ShapeMap) : List Nat → Option MetaStack
  | [] => Option.some []
  | k :: ks => (m k).bind (fun v => (lookupAll m ks).map (fun vs => v :: vs))

/-- The pass-through rule for tanh, relu and sigmoid: exactly one
input, output shape equal to the input shape. -/
def unarySameShape (variableMetas : MetaStack) : Res (List Int) :=
  match variableMetas with
  | [m] => Res.ok m.shape
  | _ => Res.err "Expected 1 input shape for operators."

/-- Dispatch part of ShapeInferenceEngine::shapeOnNode: computes the
vector outputShapesOrValues for the node (one entry for every rule
except constantChunk, which yields one entry per chunk). -/
def dispatchOp (hasEndOffset : Bool) (kind : OpKind) (inputMetas : MetaStack) :
    Res (List (List Int)) :=
  match kind with
  | OpKind.fusedStackOp dim => do
    let s ← fusedStack inputMetas dim
    pure [s]
  | OpKind.embeddingBagByteRowwiseOffsetsOp => do
    let s ← embeddingBagByteRowwiseOffsets hasEndOffset inputMetas
    pure [s]
  | OpKind.primConstantOp ty => do
    let s ← primConstant ty
    pure [s]
  | OpKind.tanhOp => do
    let s ← unarySameShape inputMetas
    pure [s]
  | OpKind.reluOp => do
    let s ← unarySameShape inputMetas
    pure [s]
  | OpKind.sigmoidOp => do
    let s ← unarySameShape inputMetas
    pure [s]
  | OpKind.subOp => do
    let s ← binaryOp inputMetas
    pure [s]
  | OpKind.powOp => do
    let s ← binaryOp inputMetas
    pure [s]
  | OpKind.mulOp => do
    let s ← binaryOp inputMetas
    pure [s]
  | OpKind.addOp => do
    let s ← binaryOp inputMetas
    pure [s]
  | OpKind.mmOp => do
    let s ← mm inputMetas
    pure [s]
  | OpKind.addmmOp => do
    let s ← addmm inputMetas
    pure [s]
  | OpKind.bmmOp => do
    let s ← bmm inputMetas
    pure [s]
  | OpKind.fusedConcatOp dim => do
    let s ← fusedConcat inputMetas dim
    pure [s]
  | OpKind.constantChunkOp chunks dim => constantChunk inputMetas chunks dim
  | OpKind.listConstructOp => do
    let s ← listConstruct inputMetas
    pure [s]
  | OpKind.sliceOp => do
    let s ← slice inputMetas
    pure [s]
  | OpKind.reshapeOp => do
    let s ← reshape inputMetas
    pure [s]
  | OpKind.permuteOp => do
    let s ← permute inputMetas
    pure [s]
  | OpKind.embeddingBagOp => do
    let s ← embeddingBag hasEndOffset inputMetas
    pure [s]
  | OpKind.unknownOp _ => Res.err "Node operator is not supported"

/-- Generic storage branch of shapeOnNode: one shape per declared
output, in order; reading a missing computed entry would be
out-of-bounds. -/
def storeAll (m : ShapeMap) : List Nat → List (List Int) → Res ShapeMap
  | [], _ => Res.ok m
  | o :: os, s :: ss => storeAll (update m o ⟨s, []⟩) os ss
  | _ :: _, [] => Res.fatal

/-- Storage policy of shapeOnNode.  prim::Constant with a
tensor-typed output stores a shape only, any other constant stores
shape {1} plus the produced values; prim::ListConstruct stores shape
{count, 1} plus the values; aten::embedding_bag stores only output 0;
every other node stores one shape per declared output. -/
def storeResult (m : ShapeMap) (n : Node) (res : List (List Int)) : Res ShapeMap :=
  match n.kind with
  | OpKind.primConstantOp ty =>
    match n.outputs, res with
    | [o], s :: _ =>
      match ty with
      | ConstType.tensor _ => Res.ok (update m o ⟨s, []⟩)
      | _ => Res.ok (update m o ⟨[1], s⟩)
    | _, _ => Res.fatal
  | OpKind.listConstructOp =>
    match n.outputs, res with
    | [o], s :: _ => Res.ok (update m o ⟨[(s.length : Int), 1], s⟩)
    | _, _ => Res.fatal
  | OpKind.embeddingBagOp =>
    match n.outputs, res with
    | o :: _, s :: _ => Res.ok (update m o ⟨s, []⟩)
    | _, _ => Res.fatal
  | _ => storeAll m n.outputs res

/-- ShapeInferenceEngine::shapeOnNode of the source: resolve the
input metadata, run the rule of the operator tag, store the results
per the output-kind policy. -/
def shapeOnNode (hasEndOffset : Bool) (m : ShapeMap) (n : Node) : Res ShapeMap :=
  match lookupAll m n.inputs with
  | Option.none => Res.fatal
  | Option.some inputMetas => do
    let res ← dispatchOp hasEndOffset n.kind inputMetas
    storeResult m n res

/-- One concrete input bound to a graph input value. -/
inductive ConcreteInput where
  | tensor (dims : List Int)
  | boolVal (v : Int)
  | intVal (v : Int)
  | intList (vs : List Int)
  | other
deriving DecidableEq, Repr

/-- Binding of one concrete input, from
ShapeInferenceEngine::getGraphIntputShape: a tensor stores its
dimension list, a boolean or integer stores shape {1} plus the value,
an integer list stores shape {length, 1} plus the elements, anything
else is an Error. -/
def bindInput : ConcreteInput → Res VariableMeta
  | ConcreteInput.tensor dims => Res.ok ⟨dims, []⟩
  | ConcreteInput.boolVal v => Res.ok ⟨[1], [v]⟩
  | ConcreteInput.intVal v => Res.ok ⟨[1], [v]⟩
  | ConcreteInput.intList vs => Res.ok ⟨[(vs.length : Int), 1], vs⟩
  | ConcreteInput.other => Res.err "Input type doesn't support yet."

/-- Loop of ShapeInferenceEngine::getGraphIntputShape over the paired
graph inputs and concrete inputs. -/
def getGraphIntputShape : List (Nat × ConcreteInput) → ShapeMap → Res ShapeMap
  | [], m => Res.ok m
  | (g, inp) :: rest, m => do
    let v ← bindInput inp
    getGraphIntputShape rest (update m g v)

/-- The node walk of ShapeInferenceEngine::run: apply shapeOnNode to
every node in order, aborting at the first failure. -/
def walkNodes (hasEndOffset : Bool) : List Node → ShapeMap → Res ShapeMap
  | [], m => Res.ok m
  | n :: ns, m => do
    let m1 ← shapeOnNode hasEndOffset m n
    walkNodes hasEndOffset ns m1

/-- ShapeInferenceEngine::generateGraphOutputShape of the source:
read the stored shape of every declared graph output; a missing entry
fails the CHECK. -/
def generateGraphOutputShape (m : ShapeMap) : List Nat → Res (List (List Int))
  | [] => Res.ok []
  | o :: os =>
    match m o with
    | Option.none => Res.fatal
    | Option.some v => do
      let rest ← generateGraphOutputShape m os
      pure (v.shape :: rest)

/-- ShapeInferenceEngine::run of the source.  The second component of
the result is the content of outputShape_ after the call: it is only
filled on a fully successful run. -/
def run (hasEndOffset : Bool) (g : Graph) (ins : List ConcreteInput) :
    Res Unit × List (List Int) :=
  if ins.length ≠ g.inputs.length then
    (Res.err "Number of inputs mismatch between Graph and actual inputs", [])
  else
    match getGraphIntputShape (g.inputs.zip ins) emptyMap with
    | Res.err e => (Res.err e, [])
    | Res.fatal => (Res.fatal, [])
    | Res.ok m0 =>
      match walkNodes hasEndOffset g.nodes m0 with
      | Res.err e => (Res.err e, [])
      | Res.fatal => (Res.fatal, [])
      | Res.ok m1 =>
        match generateGraphOutputShape m1 g.outputs with
        | Res.ok shapes => (Res.ok (), shapes)
        | _ => (Res.fatal, [])

/-! Specification-side definitions, written from the words of the
specification, for the refinement claims. -/

/-- Modelled from the spec wording for the slice rule: the length of
the sliced axis, given the axis length l and the requested start, end
and step.  Integer division is truncated division, as in the
specification sentence about integer division plus one on a
remainder. -/
def sliceAxisLen (l start en step : Int) : Int :=
  if start ≥ l ∨ en ≤ -l then 0
  else
    let start1 :=
      if start ≤ -l then 0
      else if -l < start ∧ start < 0 then start + l
      else start
    let en1 :=
      if en > l then l
      else if -l < en ∧ en < 0 then en + l
      else en
    if start1 ≥ en1 then 0
    else Int.tdiv (en1 - start1) step + (if Int.tmod (en1 - start1) step ≠ 0 then 1 else 0)

/-- Modelled from the spec wording for the reshape rule: with s0 the
product of the input dimensions and s1 the product of the explicit
(non -1) target entries, more than one -1 placeholder is an Error,
s1 must divide s0, and the single placeholder, if present, resolves
to s0 / s1. -/
def reshapeSpec (selfShape target : List Int) : Res (List Int) :=
  if 2 ≤ (target.filter (fun v => v = -1)).length then
    Res.err "Unable to infer undetermined dimension"
  else
    let s0 := selfShape.prod
    let s1 := (target.filter (fun v => v ≠ -1)).prod
    if ¬(s1 ∣ s0) then Res.err "Reshape size is invalid for input size."
    else Res.ok (target.map (fun v => if v = -1 then Int.tdiv s0 s1 else v))

/-! Small rewriting lemmas for the Res monad. -/

@[simp] theorem bind_ok {α β : Type} (a : α) (f : α → Res β) :
    (Res.ok a >>= f) = f a := rfl

@[simp] theorem pure_eq_ok {α : Type} (a : α) : (pure a : Res α) = Res.ok a := rfl

@[simp] theorem err_bind {α β : Type} (e : String) (f : α → Res β) :
    (Res.err e >>= f) = Res.err e := rfl

@[simp] theorem fatal_bind {α β : Type} (f : α → Res β) :
    (Res.fatal >>= f) = Res.fatal := rfl

theorem tdivC_of_ne {b : Int} (h : b ≠ 0) (a : Int) :
    tdivC a b = Res.ok (Int.tdiv a b) := by
  rw [tdivC, if_neg h]

theorem tmodC_of_ne {b : Int} (h : b ≠ 0) (a : Int) :
    tmodC a b = Res.ok (Int.tmod a b) := by
  rw [tmodC, if_neg h]

/-! Theorems for the claims. -/

/-- C1: the elementwise binary rule returns the first operand shape
when the second has rank 1, and otherwise right-aligned
NumPy broadcasting, as the spec examples show; but on shapes whose
first operand has a size-1 dimension at a position past the rank of
the second operand — here [1,2,3] against [2,3], where the claimed
broadcast result is [1,2,3] — the source reads the second shape
vector at effective index -1, an out-of-bounds access, instead of
producing the claimed result. -/
theorem binaryOp_oob_divergence :
    binaryOp [⟨[1, 2, 3], []⟩, ⟨[2, 3], []⟩] = Res.fatal ∧
    binaryOp [⟨[2, 1, 4], []⟩, ⟨[3, 4], []⟩] = Res.ok [2, 3, 4] ∧
    (∃ e, binaryOp [⟨[2, 3], []⟩, ⟨[2, 4], []⟩] = Res.err e) ∧
    binaryOp [⟨[7, 9], []⟩, ⟨[1], [3]⟩] = Res.ok [7, 9] := by
  refine ⟨rfl, rfl, ⟨_, rfl⟩, rfl⟩

/-- C10: a graph input bound from a one-element tensor is stored with
shape {1} but an empty intValue list; the list-construction rule and
the slice rule accept such an entry on the strength of its shape
alone and then read the first element of the empty intValue vector,
an out-of-bounds access, contradicting the claimed safety
property. -/
theorem listConstruct_slice_empty_intValue_oob :
    bindInput (ConcreteInput.tensor [1]) = Res.ok ⟨[1], []⟩ ∧
    listConstruct [⟨[1], []⟩] = Res.fatal ∧
    slice [⟨[10], []⟩, ⟨[1], []⟩, ⟨[1], [0]⟩, ⟨[1], [10]⟩, ⟨[1], [1]⟩] = Res.fatal := by
  refine ⟨rfl, rfl, rfl⟩

/-- C6 counterexample: with 8 inputs, indices of rank 1, offsets of
rank 2 (shape [2,2]) and weight of shape [4,5], the claim prescribes
the output shape {2 - adjustment, 5}, but the rule returns the
1D-offset Error instead: the source additionally requires offsets to
be one-dimensional. -/
theorem embeddingBag_offsets_rank_cex :
    embeddingBag false
      [⟨[4, 5], []⟩, ⟨[3], []⟩, ⟨[2, 2], []⟩, ⟨[1], [0]⟩, ⟨[1], [0]⟩, ⟨[1], [0]⟩,
        ⟨[1], [0]⟩, ⟨[1], [0]⟩] = Res.err "Expected 1D offset." ∧
    Res.err "Expected 1D offset." ≠ Res.ok [2, 5] := by
  exact ⟨rfl, by decide⟩

/-- C7 counterexample: a none-typed constant node is claimed to store
an empty shape, but the storage policy of shapeOnNode puts every
non-tensor constant in the non-tensor branch, so the stored shape is
{1} (with empty intValue), not the empty sequence. -/
theorem primConstant_none_stored_shape_cex :
    (match shapeOnNode false emptyMap ⟨OpKind.primConstantOp ConstType.none, [], [0]⟩ with
     | Res.ok m => (m 0).map VariableMeta.shape
     | _ => Option.none) = Option.some [1] ∧
    Option.some ([1] : List Int) ≠ Option.some ([] : List Int) := by
  exact ⟨rfl, by decide⟩

/-- C9 counterexample: splitting a dimension of size 10 into 20
constant chunks stores ceil = 1 for the first 19 pieces and
10 - 1 * 19 = -9 for the last piece, a negative dimension, refuting
the claimed non-negativity for chunk counts above the dimension
size. -/
theorem constantChunk_negative_dim_cex :
    constantChunk [⟨[10], []⟩] 20 0 =
      Res.ok ((List.replicate 19 [1]) ++ [[-9]]) ∧ (-9 : Int) < 0 := by
  exact ⟨rfl, by decide⟩

/-- The slice rule on carrier-form inputs with a nonzero step equals
the specified axis length computation. -/
theorem slice_eq_spec (selfShape sv : List Int) (d s e st : Int)
    (hd0 : 0 ≤ d) (hd : d.toNat < selfShape.length) (hst : st ≠ 0) :
    slice [⟨selfShape, sv⟩, ⟨[1], [d]⟩, ⟨[1], [s]⟩, ⟨[1], [e]⟩, ⟨[1], [st]⟩] =
      Res.ok (selfShape.set d.toNat (sliceAxisLen (selfShape.get ⟨d.toNat, hd⟩) s e st)) := by
  simp only [slice, List.length_cons, List.length_nil, getI, sliceAxisLen]
  norm_num
  rw [dif_pos ⟨hd0, hd⟩]
  simp only [bind_ok, tdivC_of_ne hst, tmodC_of_ne hst]
  split_ifs <;> simp

/-- C2 counterexample: at step 0 the source divides (end - start) by
zero, undefined behavior, where the claim prescribes the output shape
with the axis length formula; the run does not produce the claimed
shape. -/
theorem slice_zero_step_cex :
    slice [⟨[10], []⟩, ⟨[1], [0]⟩, ⟨[1], [0]⟩, ⟨[1], [5]⟩, ⟨[1], [0]⟩] = Res.fatal ∧
    Res.fatal ≠ Res.ok (([10] : List Int).set 0 (sliceAxisLen 10 0 5 0)) := by
  exact ⟨rfl, by decide⟩

/-- C2 amended: for a slice node with five inputs — self and scalar
carriers dim, start, end, step, with the dim axis in range and a
nonzero step (a zero step makes the source divide by zero) — the
output shape equals the self shape with the dim axis replaced by the
axis length the spec describes: 0 when start is at least the axis
length L or end is at most -L, otherwise start and end normalized by
clamping and by adding L to negative-but-in-range values, then 0 when
start is at least end and otherwise the truncated quotient of
(end - start) by step plus one on a remainder. -/
theorem slice_matches_spec (selfShape sv : List Int) (d s e st : Int)
    (hd0 : 0 ≤ d) (hd : d.toNat < selfShape.length) (hst : st ≠ 0) :
    slice [⟨selfShape, sv⟩, ⟨[1], [d]⟩, ⟨[1], [s]⟩, ⟨[1], [e]⟩, ⟨[1], [st]⟩] =
      Res.ok (selfShape.set d.toNat (sliceAxisLen (selfShape.get ⟨d.toNat, hd⟩) s e st)) :=
  slice_eq_spec selfShape sv d s e st hd0 hd hst

/-- C2 witness: shape [10], dim 0, start -12, end 100, step 1 gives
axis length 10. -/
theorem slice_matches_spec_w :
    slice [⟨[10], []⟩, ⟨[1], [0]⟩, ⟨[1], [-12]⟩, ⟨[1], [100]⟩, ⟨[1], [1]⟩] = Res.ok [10] := by
  have h := slice_matches_spec [10] [] 0 (-12) 100 1 (by decide) (by decide) (by decide)
  rw [h]
  rfl

/-- Successful-case characterization of constantChunk: with the
normalized dim in range the rule returns one shape per chunk, the
last piece absorbing the remainder. -/
theorem constantChunk_ok (shape sv : List Int) (chunks dim : Int)
    (hc0 : chunks ≠ 0)
    (h2 : (normDim dim (shape.length : Int)).toNat < shape.length)
    (h0 : 0 ≤ normDim dim (shape.length : Int)) :
    constantChunk [⟨shape, sv⟩] chunks dim =
      Res.ok ((List.range chunks.toNat).map (fun i =>
        shape.set (normDim dim (shape.length : Int)).toNat
          (if (i : Int) = chunks - 1 then
            shape.get ⟨(normDim dim (shape.length : Int)).toNat, h2⟩ -
              Int.tdiv (shape.get ⟨(normDim dim (shape.length : Int)).toNat, h2⟩ + chunks - 1)
                chunks * (chunks - 1)
           else
            Int.tdiv (shape.get ⟨(normDim dim (shape.length : Int)).toNat, h2⟩ + chunks - 1)
              chunks))) := by
  have hrange : normDim dim (shape.length : Int) < (shape.length : Int) ∧
      0 ≤ normDim dim (shape.length : Int) := by
    constructor
    · omega
    · exact h0
  simp only [constantChunk, List.length_cons, List.length_nil]
  rw [if_neg (by simp), if_neg (not_not_intro hrange)]
  rw [getI, dif_pos ⟨h0, h2⟩]
  simp only [bind_ok, pure_eq_ok, tdivC_of_ne hc0]

/-- C4: a ConstantChunk node with one input fails exactly when the
normalized dim is outside [0, rank); otherwise it returns chunks
shapes, each equal to the input shape except at the chunked axis,
where with c the ceiling division of the axis size by chunks every
piece but the last has size c and the last piece has
size - c * (chunks - 1). -/
theorem constantChunk_matches_spec (shape sv : List Int) (chunks dim : Int)
    (hc : 0 < chunks) :
    ((∃ e, constantChunk [⟨shape, sv⟩] chunks dim = Res.err e) ↔
      ¬(0 ≤ normDim dim (shape.length : Int) ∧
        normDim dim (shape.length : Int) < (shape.length : Int))) ∧
    (∀ (h0 : 0 ≤ normDim dim (shape.length : Int))
        (h2 : (normDim dim (shape.length : Int)).toNat < shape.length),
      constantChunk [⟨shape, sv⟩] chunks dim =
        Res.ok ((List.range chunks.toNat).map (fun i =>
          shape.set (normDim dim (shape.length : Int)).toNat
            (if (i : Int) = chunks - 1 then
              shape.get ⟨(normDim dim (shape.length : Int)).toNat, h2⟩ -
                Int.tdiv (shape.get ⟨(normDim dim (shape.length : Int)).toNat, h2⟩ + chunks - 1)
                  chunks * (chunks - 1)
             else
              Int.tdiv (shape.get ⟨(normDim dim (shape.length : Int)).toNat, h2⟩ + chunks - 1)
                chunks)))) := by
  refine ⟨⟨?_, ?_⟩, fun h0 h2 => constantChunk_ok shape sv chunks dim (by omega) h2 h0⟩
  · rintro ⟨e, he⟩ hin
    have h2 : (normDim dim (shape.length : Int)).toNat < shape.length := by omega
    rw [constantChunk_ok shape sv chunks dim (by omega) h2 hin.1] at he
    exact Res.noConfusion he
  · intro hout
    refine ⟨"Dim value is out of range.", ?_⟩
    simp only [constantChunk, List.length_cons, List.length_nil]
    rw [if_neg (by simp), if_pos (by tauto)]

/-- C4 witness: a dimension of size 10 split into 3 chunks along axis
0 gives piece sizes 4, 4, 2 in order. -/
theorem constantChunk_matches_spec_w :
    constantChunk [⟨[10], []⟩] 3 0 = Res.ok [[4], [4], [2]] := by
  have h := (constantChunk_matches_spec [10] [] 3 0 (by decide)).2 (by decide) (by decide)
  rw [h]
  rfl

/-- C5: the addmm rule selects the product shape as the spec says —
mat1 shape on a scalar third operand, else the strict 2-D
matrix-multiply shape with matching inner dimension — but the final
broadcast of the bias against that product shape inherits the
elementwise-binary out-of-bounds access: at bias shape [1,2,3], mat1
shape [2,3] and a scalar third operand, the claimed broadcast of
[1,2,3] against the product shape [2,3] gives [1,2,3], while the rule
reads the product shape vector at effective index -1, undefined
behavior, instead of producing the claimed result.  The well-behaved
evaluations match the claim: the mm path with inner match and
broadcast, the inner-dimension mismatch Error, and a bias with a
size-1 trailing dimension. -/
theorem addmm_oob_divergence :
    addmm [⟨[1, 2, 3], []⟩, ⟨[2, 3], []⟩, ⟨[1], [1]⟩] = Res.fatal ∧
    (Res.fatal : Res (List Int)) ≠ Res.ok [1, 2, 3] ∧
    addmm [⟨[2, 4], []⟩, ⟨[2, 3], []⟩, ⟨[3, 4], []⟩] = Res.ok [2, 4] ∧
    (∃ e, addmm [⟨[2, 4], []⟩, ⟨[2, 3], []⟩, ⟨[5, 4], []⟩] = Res.err e) ∧
    addmm [⟨[3, 1], []⟩, ⟨[3, 5], []⟩, ⟨[5, 7], []⟩] = Res.ok [3, 7] := by
  refine ⟨rfl, by decide, rfl, ⟨_, rfl⟩, rfl⟩

/-- C7 amended: the metadata a prim::Constant node stores for its
output, by declared output type: float-typed stores a scalar carrier
with value 1, integer- and boolean-typed store a scalar carrier
holding the literal, none-typed stores shape {1} with no value (not
an empty shape), and tensor-typed stores the literal tensor dimension
list as the shape with no value. -/
theorem primConstant_storage (adj : Bool) (m : ShapeMap) (ty : ConstType) (o : Nat) :
    shapeOnNode adj m ⟨OpKind.primConstantOp ty, [], [o]⟩ =
      Res.ok (update m o (match ty with
        | ConstType.float => ⟨[1], [1]⟩
        | ConstType.int v => ⟨[1], [v]⟩
        | ConstType.bool v => ⟨[1], [v]⟩
        | ConstType.none => ⟨[1], []⟩
        | ConstType.tensor dims => ⟨dims, []⟩)) := by
  cases ty <;> rfl

/-- C6 amended: both embedding-aggregation rules require exactly 8
inputs; with indices of rank 1 the plain rule additionally requires
offsets of rank 1 and returns the shape made of the offsets length
minus the end-offset adjustment and the weight second dimension; with
indices of rank 2 it returns the indices first dimension and the
weight second dimension; any other indices rank fails; the
row-wise-quantized variant returns the offsets length minus the
adjustment and the weight second dimension minus 8. -/
theorem embeddingBag_amended :
    (∀ (adj : Bool) (ms : MetaStack), ms.length ≠ 8 →
      embeddingBag adj ms = Res.err "Expected 8 inputs." ∧
      embeddingBagByteRowwiseOffsets adj ms = Res.err "Expected 8 inputs.") ∧
    (∀ (adj : Bool) (w0 w1 i0 o0 : Int) (wr av bv cv : List Int) (m4 m5 m6 m7 m8 : VariableMeta),
      embeddingBag adj [⟨w0 :: w1 :: wr, av⟩, ⟨[i0], bv⟩, ⟨[o0], cv⟩, m4, m5, m6, m7, m8] =
        Res.ok [o0 - (if adj then 1 else 0), w1]) ∧
    (∀ (adj : Bool) (m0 : VariableMeta) (i0 : Int) (bv os cv : List Int)
        (m4 m5 m6 m7 m8 : VariableMeta), os.length ≠ 1 →
      embeddingBag adj [m0, ⟨[i0], bv⟩, ⟨os, cv⟩, m4, m5, m6, m7, m8] =
        Res.err "Expected 1D offset.") ∧
    (∀ (adj : Bool) (w0 w1 i0 i1 : Int) (wr av bv : List Int)
        (m3 m4 m5 m6 m7 m8 : VariableMeta),
      embeddingBag adj [⟨w0 :: w1 :: wr, av⟩, ⟨[i0, i1], bv⟩, m3, m4, m5, m6, m7, m8] =
        Res.ok [i0, w1]) ∧
    (∀ (adj : Bool) (m0 : VariableMeta) (is bv : List Int) (m3 m4 m5 m6 m7 m8 : VariableMeta),
      is.length ≠ 1 → is.length ≠ 2 →
      embeddingBag adj [m0, ⟨is, bv⟩, m3, m4, m5, m6, m7, m8] =
        Res.err "Only support 1D and 2D Input in Embedding bag.") ∧
    (∀ (adj : Bool) (w0 w1 o0 : Int) (wr av orr cv : List Int) (m2 m4 m5 m6 m7 m8 : VariableMeta),
      embeddingBagByteRowwiseOffsets adj
          [⟨w0 :: w1 :: wr, av⟩, m2, ⟨o0 :: orr, cv⟩, m4, m5, m6, m7, m8] =
        Res.ok [o0 - (if adj then 1 else 0), w1 - 8]) := by
  refine ⟨?_, ?_, ?_, ?_, ?_, ?_⟩
  · intro adj ms h
    constructor <;> · simp [embeddingBag, embeddingBagByteRowwiseOffsets, h]
  · intro adj w0 w1 i0 o0 wr av bv cv m4 m5 m6 m7 m8
    simp [embeddingBag, getI]
  · intro adj m0 i0 bv os cv m4 m5 m6 m7 m8 h
    simp [embeddingBag, h]
  · intro adj w0 w1 i0 i1 wr av bv m3 m4 m5 m6 m7 m8
    simp [embeddingBag, getI]
  · intro adj m0 is bv m3 m4 m5 m6 m7 m8 h1 h2
    simp [embeddingBag, h1, h2]
  · intro adj w0 w1 o0 wr av orr cv m2 m4 m5 m6 m7 m8
    simp [embeddingBagByteRowwiseOffsets, getI]

/-- C6 amended witness: 7 inputs fail; a 1-D indices and 1-D offsets
run with the sentinel adjustment gives shape [5, 5]; 2-D offsets with
1-D indices fail; 2-D indices give [3, 5]; 3-D indices fail; the
quantized variant gives [5, 12]. -/
theorem embeddingBag_amended_w :
    embeddingBag true [⟨[4, 5], []⟩, ⟨[3], []⟩, ⟨[6], []⟩, ⟨[1], [0]⟩, ⟨[1], [0]⟩,
      ⟨[1], [0]⟩, ⟨[1], [0]⟩] = Res.err "Expected 8 inputs." ∧
    embeddingBag true [⟨[4, 5], []⟩, ⟨[3], []⟩, ⟨[6], []⟩, ⟨[1], [0]⟩, ⟨[1], [0]⟩,
      ⟨[1], [0]⟩, ⟨[1], [0]⟩, ⟨[1], [0]⟩] = Res.ok [5, 5] ∧
    embeddingBag true [⟨[4, 5], []⟩, ⟨[3], []⟩, ⟨[2, 2], []⟩, ⟨[1], [0]⟩, ⟨[1], [0]⟩,
      ⟨[1], [0]⟩, ⟨[1], [0]⟩, ⟨[1], [0]⟩] = Res.err "Expected 1D offset." ∧
    embeddingBag true [⟨[4, 5], []⟩, ⟨[3, 2], []⟩, ⟨[6], []⟩, ⟨[1], [0]⟩, ⟨[1], [0]⟩,
      ⟨[1], [0]⟩, ⟨[1], [0]⟩, ⟨[1], [0]⟩] = Res.ok [3, 5] ∧
    embeddingBag true [⟨[4, 5], []⟩, ⟨[3, 2, 2], []⟩, ⟨[6], []⟩, ⟨[1], [0]⟩, ⟨[1], [0]⟩,
      ⟨[1], [0]⟩, ⟨[1], [0]⟩, ⟨[1], [0]⟩] = Res.err "Only support 1D and 2D Input in Embedding bag." ∧
    embeddingBagByteRowwiseOffsets true [⟨[4, 20], []⟩, ⟨[3], []⟩, ⟨[6], []⟩, ⟨[1], [0]⟩,
      ⟨[1], [0]⟩, ⟨[1], [0]⟩, ⟨[1], [0]⟩, ⟨[1], [0]⟩] = Res.ok [5, 12] := by
  refine ⟨(embeddingBag_amended.1 true _ (by decide)).1, ?_, ?_, ?_, ?_, ?_⟩
  · have h := embeddingBag_amended.2.1 true 4 5 3 6 [] [] [] [] ⟨[1], [0]⟩ ⟨[1], [0]⟩
      ⟨[1], [0]⟩ ⟨[1], [0]⟩ ⟨[1], [0]⟩
    rw [h]
    rfl
  · exact embeddingBag_amended.2.2.1 true ⟨[4, 5], []⟩ 3 [] [2, 2] [] ⟨[1], [0]⟩ ⟨[1], [0]⟩
      ⟨[1], [0]⟩ ⟨[1], [0]⟩ ⟨[1], [0]⟩ (by decide)
  · have h := embeddingBag_amended.2.2.2.1 true 4 5 3 2 [] [] [] ⟨[6], []⟩ ⟨[1], [0]⟩
      ⟨[1], [0]⟩ ⟨[1], [0]⟩ ⟨[1], [0]⟩ ⟨[1], [0]⟩
    exact h
  · exact embeddingBag_amended.2.2.2.2.1 true ⟨[4, 5], []⟩ [3, 2, 2] [] ⟨[6], []⟩ ⟨[1], [0]⟩
      ⟨[1], [0]⟩ ⟨[1], [0]⟩ ⟨[1], [0]⟩ ⟨[1], [0]⟩ (by decide) (by decide)
  · have h := embeddingBag_amended.2.2.2.2.2 true 4 20 6 [] [] [] [] ⟨[3], []⟩ ⟨[1], [0]⟩
      ⟨[1], [0]⟩ ⟨[1], [0]⟩ ⟨[1], [0]⟩ ⟨[1], [0]⟩
    rw [h]
    rfl

/-- The binding loop fails with the unsupported-input message as soon
as one paired concrete input is of an unsupported kind. -/
theorem getGraphIntputShape_other (ps : List (Nat × ConcreteInput)) (m : ShapeMap)
    (h : ∃ g, (g, ConcreteInput.other) ∈ ps) :
    getGraphIntputShape ps m = Res.err "Input type doesn't support yet." := by
  induction ps generalizing m with
  | nil =>
    rcases h with ⟨g, hg⟩
    cases hg
  | cons p rest ih =>
    rcases p with ⟨g0, i0⟩
    rcases h with ⟨g, hg⟩
    cases i0 <;> simp [getGraphIntputShape, bindInput]
    all_goals {
      apply ih
      refine ⟨g, ?_⟩
      rcases List.mem_cons.mp hg with h1 | h2
      · simp at h1
      · exact h2
    }

/-- Every member of the second list of a zip of equally long lists is
hit by some pair. -/
theorem mem_zip_right {α β : Type} : ∀ (l1 : List α) (l2 : List β) (b : β),
    l1.length = l2.length → b ∈ l2 → ∃ a, (a, b) ∈ l1.zip l2 := by
  intro l1
  induction l1 with
  | nil =>
    intro l2 b h hb
    cases l2 with
    | nil => cases hb
    | cons x xs => simp at h
  | cons a as ih =>
    intro l2 b h hb
    cases l2 with
    | nil => cases hb
    | cons x xs =>
      rcases List.mem_cons.mp hb with h1 | h2
      · exact ⟨a, by simp [h1]⟩
      · rcases ih xs b (by simpa using h) h2 with ⟨a2, ha2⟩
        exact ⟨a2, by simp [ha2]⟩

/-- The node walk distributes over list append. -/
theorem walkNodes_append (adj : Bool) (ns1 ns2 : List Node) (m : ShapeMap) :
    walkNodes adj (ns1 ++ ns2) m = (walkNodes adj ns1 m) >>= walkNodes adj ns2 := by
  induction ns1 generalizing m with
  | nil => rfl
  | cons n ns ih =>
    simp only [List.cons_append, walkNodes]
    cases shapeOnNode adj m n <;> simp [Bind.bind, ih]

/-- C8: run fails with the cardinality-mismatch Error when the
concrete input count differs from the graph input count; it fails
with the unsupported-input-type Error when some concrete input is of
an unsupported kind; and when binding succeeds and the first failing
node rule returns an Error, run surfaces that Error unchanged; in all
three cases the graph-output shape sequence stays empty. -/
theorem run_error_discipline :
    (∀ (adj : Bool) (g : Graph) (ins : List ConcreteInput), ins.length ≠ g.inputs.length →
      run adj g ins = (Res.err "Number of inputs mismatch between Graph and actual inputs", [])) ∧
    (∀ (adj : Bool) (g : Graph) (ins : List ConcreteInput), ins.length = g.inputs.length →
      ConcreteInput.other ∈ ins →
      run adj g ins = (Res.err "Input type doesn't support yet.", [])) ∧
    (∀ (adj : Bool) (g : Graph) (ins : List ConcreteInput) (m0 m1 : ShapeMap) (n : Node)
        (ns1 ns2 : List Node) (e : String),
      ins.length = g.inputs.length →
      getGraphIntputShape (g.inputs.zip ins) emptyMap = Res.ok m0 →
      g.nodes = ns1 ++ n :: ns2 →
      walkNodes adj ns1 m0 = Res.ok m1 →
      shapeOnNode adj m1 n = Res.err e →
      run adj g ins = (Res.err e, [])) := by
  refine ⟨?_, ?_, ?_⟩
  · intro adj g ins h
    simp [run, h]
  · intro adj g ins hlen hmem
    rcases mem_zip_right g.inputs ins ConcreteInput.other hlen.symm hmem with ⟨a, ha⟩
    rw [run, if_neg (by omega), getGraphIntputShape_other _ _ ⟨a, ha⟩]
  · intro adj g ins m0 m1 n ns1 ns2 e hlen hbind hnodes hwalk hnode
    rw [run, if_neg (by omega), hbind]
    dsimp only
    rw [hnodes, walkNodes_append, hwalk]
    have hw2 : walkNodes adj (n :: ns2) m1 = Res.err e := by
      simp [walkNodes, hnode]
    simp [hw2]

/-- C8 witness: a zero-input call against a one-input graph fails
with the cardinality message; an unsupported concrete input fails
with the unsupported-input message; a graph whose only node carries
an unknown operator tag surfaces the unsupported-operator Error of
that node; the output list is empty in each case. -/
theorem run_error_discipline_w :
    run false ⟨[0], [0], []⟩ [] =
      (Res.err "Number of inputs mismatch between Graph and actual inputs", []) ∧
    run false ⟨[0], [0], []⟩ [ConcreteInput.other] =
      (Res.err "Input type doesn't support yet.", []) ∧
    run false ⟨[0], [1], [⟨OpKind.unknownOp "foo", [0], [1]⟩]⟩ [ConcreteInput.intVal 5] =
      (Res.err "Node operator is not supported", []) := by
  refine ⟨run_error_discipline.1 false _ _ (by decide),
    run_error_discipline.2.1 false _ _ (by decide) (by simp),
    run_error_discipline.2.2 false _ _ (update emptyMap 0 ⟨[1], [5]⟩)
      (update emptyMap 0 ⟨[1], [5]⟩) ⟨OpKind.unknownOp "foo", [0], [1]⟩ [] []
      "Node operator is not supported" (by decide) rfl rfl rfl rfl⟩

theorem reshapeLoop_none (l : List Int) (h : ∀ v ∈ l, v ≠ -1) (s1 ni i : Int) :
    reshapeLoop l s1 ni i = Res.ok (s1 * l.prod, ni) := by
  induction l generalizing s1 i with
  | nil => simp [reshapeLoop]
  | cons v rest ih =>
    have hv : v ≠ -1 := h v (by simp)
    simp only [reshapeLoop, if_neg hv]
    rw [ih (fun w hw => h w (by simp [hw])) (s1 * v) (i + 1)]
    rw [List.prod_cons, mul_assoc]

theorem reshapeLoop_seen (l : List Int) (hl : -1 ∈ l) (s1 ni i : Int) (hni : ni ≠ -1) :
    reshapeLoop l s1 ni i = Res.err "Unable to infer undetermined dimension" := by
  induction l generalizing s1 i with
  | nil => cases hl
  | cons v rest ih =>
    by_cases hv : v = -1
    · simp [reshapeLoop, hv, hni]
    · simp only [reshapeLoop, if_neg hv]
      exact ih (by rcases List.mem_cons.mp hl with h1 | h2; exact absurd h1.symm hv; exact h2)
        (s1 * v) (i + 1)

theorem reshapeLoop_fresh (pre post : List Int) (hpre : ∀ v ∈ pre, v ≠ -1)
    (s1 i : Int) (hi : 0 ≤ i) :
    reshapeLoop (pre ++ -1 :: post) s1 (-1) i =
      (if -1 ∈ post then Res.err "Unable to infer undetermined dimension"
       else Res.ok (s1 * (pre ++ -1 :: post).prod, i + pre.length)) := by
  induction pre generalizing s1 i with
  | nil =>
    have hstep : reshapeLoop ((-1 : Int) :: post) s1 (-1) i =
        reshapeLoop post (s1 * -1) i (i + 1) := by
      simp [reshapeLoop]
    rw [List.nil_append, hstep]
    by_cases hp : -1 ∈ post
    · rw [if_pos hp, reshapeLoop_seen post hp (s1 * -1) i (i + 1) (by omega)]
    · rw [if_neg hp, reshapeLoop_none post (fun v hv hveq => hp (hveq ▸ hv)) (s1 * -1) i (i + 1)]
      rw [List.prod_cons]
      simp only [Res.ok.injEq, Prod.mk.injEq]
      constructor
      · ring
      · simp
  | cons v pre1 ih =>
    have hv : v ≠ -1 := hpre v (by simp)
    simp only [List.cons_append, reshapeLoop, if_neg hv, List.append_eq]
    rw [ih (fun w hw => hpre w (by simp [hw])) (s1 * v) (i + 1) (by omega)]
    by_cases hp : -1 ∈ post
    · rw [if_pos hp, if_pos hp]
    · rw [if_neg hp, if_neg hp]
      simp only [Res.ok.injEq, Prod.mk.injEq, List.length_cons, List.prod_cons]
      constructor
      · ring
      · push_cast
        omega
theorem first_split {a : Int} {l : List Int} (hl : a ∈ l) :
    ∃ pre post, l = pre ++ a :: post ∧ a ∉ pre := by
  induction l with
  | nil => cases hl
  | cons x xs ih =>
    by_cases hx : x = a
    · exact ⟨[], xs, by simp [hx], by simp⟩
    · rcases ih (by
        rcases List.mem_cons.mp hl with h1 | h2
        · exact absurd h1.symm hx
        · exact h2) with ⟨pre, post, heq, hnp⟩
      refine ⟨x :: pre, post, by simp [heq], ?_⟩
      intro hc
      rcases List.mem_cons.mp hc with h1 | h2
      · exact hx h1.symm
      · exact hnp h2

theorem set_append_mid (pre post : List Int) (x v : Int) :
    (pre ++ x :: post).set pre.length v = pre ++ v :: post := by
  induction pre with
  | nil => rfl
  | cons p ps ih => simp [List.set, ih]

theorem reshape_eq_spec (selfShape sv ts target : List Int) (hz : (0 : Int) ∉ target) :
    reshape [⟨selfShape, sv⟩, ⟨ts, target⟩] = reshapeSpec selfShape target := by
  have harity : ¬(([⟨selfShape, sv⟩, ⟨ts, target⟩] : MetaStack).length ≠ 2) := by
    simp [MetaStack]
  by_cases hmem : (-1 : Int) ∈ target
  · rcases first_split hmem with ⟨pre, post, heq, hnp⟩
    subst heq
    have hnp2 : ∀ v ∈ pre, v ≠ -1 := fun v hv hveq => hnp (hveq ▸ hv)
    by_cases hp : (-1 : Int) ∈ post
    · -- two placeholders: both sides return the under-determined Error
      have hcount : 2 ≤ ((pre ++ -1 :: post).filter (fun v => v = -1)).length := by
        rw [List.filter_append, List.filter_cons]
        have h1 : pre.filter (fun v => decide (v = -1)) = [] := by
          rw [List.filter_eq_nil]
          intro a ha
          simpa using hnp2 a ha
        have h2 : (post.filter (fun v => decide (v = -1))).length ≠ 0 := by
          simp only [ne_eq, List.length_eq_zero]
          intro hz
          rw [List.filter_eq_nil] at hz
          have hcontra := hz (-1) hp
          simp at hcontra
        simp [h1]
        omega
      rw [reshape, if_neg harity]
      simp only [reshapeSpec, if_pos hcount]
      rw [reshapeLoop_fresh pre post hnp2 1 0 le_rfl, if_pos hp]
      rfl
    · -- exactly one placeholder
      have hcount : ¬(2 ≤ ((pre ++ -1 :: post).filter (fun v => v = -1)).length) := by
        rw [List.filter_append, List.filter_cons]
        have h1 : pre.filter (fun v => decide (v = -1)) = [] := by
          rw [List.filter_eq_nil]
          intro a ha
          simpa using hnp2 a ha
        have h2 : post.filter (fun v => decide (v = -1)) = [] := by
          rw [List.filter_eq_nil]
          intro a ha
          simp only [decide_eq_true_eq]
          intro hveq
          exact hp (hveq ▸ ha)
        simp [h1, h2]
      have hfilter : (pre ++ -1 :: post).filter (fun v => v ≠ -1) = pre ++ post := by
        have h1 : pre.filter (fun v => !decide (v = -1)) = pre := by
          rw [List.filter_eq_self]
          intro a ha
          simpa using hnp2 a ha
        have h2 : post.filter (fun v => !decide (v = -1)) = post := by
          rw [List.filter_eq_self]
          intro a ha
          have : a ≠ -1 := fun hveq => hp (hveq ▸ ha)
          simpa using this
        simp [List.filter_append, List.filter_cons, h1, h2]
      have hprodneg : (pre ++ -1 :: post).prod = -((pre ++ post).prod) := by
        rw [List.prod_append, List.prod_cons, List.prod_append]
        ring
      have hpne : ((pre ++ post).prod : Int) ≠ 0 := by
        apply List.prod_ne_zero
        intro h0
        rcases List.mem_append.mp h0 with h0a | h0b
        · exact hz (List.mem_append.mpr (Or.inl h0a))
        · exact hz (List.mem_append.mpr (Or.inr (List.mem_cons_of_mem _ h0b)))
      have hnne : -((pre ++ post).prod) ≠ (0 : Int) := by
        simpa using hpne
      rw [reshape, if_neg harity]
      simp only [reshapeSpec, if_neg hcount, hfilter]
      rw [reshapeLoop_fresh pre post hnp2 1 0 le_rfl, if_neg hp]
      simp only [bind_ok, one_mul]
      rw [hprodneg]
      simp only [tmodC_of_ne hnne, bind_ok]
      have hiff : (Int.tmod selfShape.prod (-((pre ++ post).prod)) ≠ 0) ↔
          ¬((pre ++ post).prod ∣ selfShape.prod) := by
        constructor
        · intro h hdv
          exact h (Int.tmod_eq_zero_of_dvd ((neg_dvd).mpr hdv))
        · intro h hz
          exact h ((neg_dvd).mp (Int.dvd_of_tmod_eq_zero hz))
      by_cases hdv : (pre ++ post).prod ∣ selfShape.prod
      · rw [if_neg (by rw [hiff]; exact not_not_intro hdv), if_neg (not_not_intro hdv)]
        have hne : ((0 : Int) + (pre.length : Int)) ≠ -1 := by omega
        rw [if_pos hne]
        simp only [tdivC_of_ne hnne, bind_ok]
        have hq : Int.tdiv (-selfShape.prod) (-((pre ++ post).prod)) =
            Int.tdiv selfShape.prod ((pre ++ post).prod) := by
          rw [Int.tdiv_neg, Int.neg_tdiv, neg_neg]
        have hidx : ((0 : Int) + (pre.length : Int)).toNat = pre.length := by omega
        rw [hq, hidx]
        have hmap : (pre ++ -1 :: post).map
            (fun v => if v = -1 then Int.tdiv selfShape.prod ((pre ++ post).prod) else v) =
              pre ++ Int.tdiv selfShape.prod ((pre ++ post).prod) :: post := by
          rw [List.map_append, List.map_cons]
          have h1 : pre.map
              (fun v => if v = -1 then Int.tdiv selfShape.prod ((pre ++ post).prod) else v) =
                pre := by
            apply List.map_congr_left ?_ |>.trans pre.map_id
            intro a ha
            simp [hnp2 a ha]
          have h2 : post.map
              (fun v => if v = -1 then Int.tdiv selfShape.prod ((pre ++ post).prod) else v) =
                post := by
            apply List.map_congr_left ?_ |>.trans post.map_id
            intro a ha
            have : a ≠ -1 := fun hveq => hp (hveq ▸ ha)
            simp [this]
          rw [h1, h2]
          simp
        rw [hmap, set_append_mid]
        rfl
      · rw [if_pos (by rw [hiff]; exact hdv), if_pos hdv]
  · -- no placeholder
    have hnone : ∀ v ∈ target, v ≠ -1 := fun v hv hveq => hmem (hveq ▸ hv)
    have hcount : ¬(2 ≤ (target.filter (fun v => v = -1)).length) := by
      have h1 : target.filter (fun v => decide (v = -1)) = [] := by
        rw [List.filter_eq_nil]
        intro a ha
        simpa using hnone a ha
      simp [h1]
    have hfilter : target.filter (fun v => v ≠ -1) = target := by
      rw [List.filter_eq_self]
      intro a ha
      simpa using hnone a ha
    have htne : (target.prod : Int) ≠ 0 := List.prod_ne_zero hz
    rw [reshape, if_neg harity]
    simp only [reshapeSpec, if_neg hcount, hfilter]
    rw [reshapeLoop_none target hnone 1 (-1) 0]
    simp only [bind_ok, one_mul]
    simp only [tmodC_of_ne htne, bind_ok]
    have hdvd2 : (Int.tmod selfShape.prod target.prod ≠ 0) ↔ ¬(target.prod ∣ selfShape.prod) := by
      constructor
      · intro h hdv
        exact h (Int.tmod_eq_zero_of_dvd hdv)
      · intro h hz
        exact h (Int.dvd_of_tmod_eq_zero hz)
    by_cases hdv : target.prod ∣ selfShape.prod
    · rw [if_neg (by rw [hdvd2]; exact not_not_intro hdv), if_neg (not_not_intro hdv)]
      rw [if_neg (by simp)]
      have hmap : target.map
          (fun v => if v = -1 then Int.tdiv selfShape.prod target.prod else v) = target := by
        apply List.map_congr_left ?_ |>.trans target.map_id
        intro a ha
        simp [hnone a ha]
      rw [hmap]
      rfl
    · rw [if_pos (by rw [hdvd2]; exact hdv), if_pos hdv]

/-- C3 counterexample: a target containing a zero entry makes S1
zero, and the source computes s0 % 0 — division by zero, undefined
behavior — where the claim prescribes the recoverable
invalid-size Error (S1 = 0 does not divide S0 = 6). -/
theorem reshape_zero_target_cex :
    reshape [⟨[2, 3], []⟩, ⟨[2, 1], [0, 4]⟩] = Res.fatal ∧
    (Res.fatal : Res (List Int)) ≠ Res.err "Reshape size is invalid for input size." := by
  exact ⟨rfl, by decide⟩

/-- C3 amended: a reshape node with two inputs (self and a list
carrier giving the target shape) whose target contains no zero entry
(a zero entry makes the source divide by zero) behaves as the spec
describes: with S0 the product of the self dimensions and S1 the
product of the explicit (non -1) target entries, more than one -1
placeholder fails with the under-determined Error, S1 must divide S0
(else fails), and the result is the target list with the single -1
placeholder, if present, replaced by S0 / S1. -/
theorem reshape_matches_spec (selfShape sv ts target : List Int) (hz : (0 : Int) ∉ target) :
    reshape [⟨selfShape, sv⟩, ⟨ts, target⟩] = reshapeSpec selfShape target :=
  reshape_eq_spec selfShape sv ts target hz

/-- C3 amended witness: input product 24 with target [-1, 4] resolves
to [6, 4]. -/
theorem reshape_matches_spec_w :
    reshape [⟨[2, 3, 4], []⟩, ⟨[2, 1], [-1, 4]⟩] = Res.ok [6, 4] := by
  have h := reshape_matches_spec [2, 3, 4] [] [2, 1] [-1, 4] (by decide)
  rw [h]
  rfl

/-- Non-negativity of every entry of a dimension list. -/
abbrev NN (l : List Int) : Prop := ∀ x ∈ l, 0 ≤ x

theorem getI_mem {l : List Int} {i v : Int} (h : getI l i = Res.ok v) : v ∈ l := by
  rw [getI] at h
  split at h
  · cases h
    exact List.get_mem _ _ _
  · cases h

theorem broadcastDim_mem {t0 t1 : List Int} {i : Nat} {v : Int}
    (h : broadcastDim t0 t1 i = Res.ok v) : v ∈ t0 ∨ v ∈ t1 := by
  rw [broadcastDim] at h
  split at h
  · exact Or.inr (getI_mem h)
  · revert h
    cases hga : getI t0 ((t0.length : Int) - 1 - (i : Int)) with
    | ok a =>
      intro h
      simp only [bind_ok] at h
      split at h
      · exact Or.inr (getI_mem h)
      · split at h
        · cases h
          exact Or.inl (getI_mem hga)
        · revert h
          cases hgb : getI t1 ((t1.length : Int) - 1 - (i : Int)) with
          | ok b =>
            intro h
            simp only [bind_ok] at h
            split at h
            · cases h
              exact Or.inl (getI_mem hga)
            · split at h
              · cases h
              · cases h
                exact Or.inr (getI_mem hgb)
          | err e => intro h; cases h
          | fatal => intro h; cases h
    | err e => intro h; cases h
    | fatal => intro h; cases h

theorem broadcastGo_mem {t0 t1 : List Int} :
    ∀ {fuel i : Nat} {l : List Int}, broadcastGo t0 t1 i fuel = Res.ok l →
      ∀ v ∈ l, v ∈ t0 ∨ v ∈ t1 := by
  intro fuel
  induction fuel with
  | zero =>
    intro i l h v hv
    cases h
    cases hv
  | succ n ih =>
    intro i l h v hv
    rw [broadcastGo] at h
    revert h
    cases hd : broadcastDim t0 t1 i with
    | ok a =>
      intro h
      simp only [bind_ok] at h
      revert h
      cases hrest : broadcastGo t0 t1 (i + 1) n with
      | ok rest =>
        intro h
        simp only [bind_ok, pure_eq_ok] at h
        cases h
        rcases List.mem_cons.mp hv with h1 | h2
        · exact h1 ▸ broadcastDim_mem hd
        · exact ih hrest v h2
      | err e => intro h; cases h
      | fatal => intro h; cases h
    | err e => intro h; cases h
    | fatal => intro h; cases h

theorem binaryOp_nonneg {ms : MetaStack} {r : List Int}
    (hms : ∀ m ∈ ms, NN m.shape) (h : binaryOp ms = Res.ok r) : NN r := by
  rcases ms with _ | ⟨t0m, _ | ⟨t1m, rest⟩⟩
  · simp [binaryOp] at h
  · simp [binaryOp] at h
  · rw [binaryOp] at h
    by_cases hlen : (t0m :: t1m :: rest : MetaStack).length ≠ 2 ∧
        (t0m :: t1m :: rest : MetaStack).length ≠ 3
    · rw [if_pos hlen] at h
      cases h
    · rw [if_neg hlen] at h
      dsimp only at h
      split at h
      · cases h
        exact hms t0m (by simp)
      · revert h
        cases hg : broadcastGo t0m.shape t1m.shape 0 (max t0m.shape.length t1m.shape.length) with
        | ok dims =>
          intro h
          simp only [bind_ok, pure_eq_ok] at h
          cases h
          intro v hv
          rcases broadcastGo_mem hg v (List.mem_reverse.mp hv) with h1 | h2
          · exact hms t0m (by simp) v h1
          · exact hms t1m (by simp) v h2
        | err e =>
          intro h
          cases h
        | fatal =>
          intro h
          cases h

theorem mm_nonneg {m0 m1 : VariableMeta} {r : List Int}
    (h0 : NN m0.shape) (h1 : NN m1.shape) (h : mm [m0, m1] = Res.ok r) : NN r := by
  rcases m0 with ⟨s0, v0⟩
  rcases m1 with ⟨s1, v1⟩
  dsimp only at h0 h1
  rcases s0 with _ | ⟨a0, _ | ⟨a1, _ | ⟨a2, s0t⟩⟩⟩ <;>
    rcases s1 with _ | ⟨b0, _ | ⟨b1, _ | ⟨b2, s1t⟩⟩⟩ <;>
    simp only [mm, List.map, List.length_cons, List.length_nil] at h <;>
    first
    | cases h
    | (by_cases hab : a1 ≠ b0
       · rw [if_pos hab] at h
         cases h
       · rw [if_neg hab] at h
         cases h
         intro v hv
         rcases List.mem_cons.mp hv with hv1 | hv2
         · exact hv1 ▸ h0 a0 (by simp)
         · rcases List.mem_cons.mp hv2 with hv3 | hv4
           · exact hv3 ▸ h1 b1 (by simp)
           · cases hv4)

theorem bmm_nonneg {m0 m1 : VariableMeta} {r : List Int}
    (h0 : NN m0.shape) (h1 : NN m1.shape) (h : bmm [m0, m1] = Res.ok r) : NN r := by
  rcases m0 with ⟨s0, v0⟩
  rcases m1 with ⟨s1, v1⟩
  dsimp only at h0 h1
  rcases s0 with _ | ⟨a0, _ | ⟨a1, _ | ⟨a2, _ | ⟨a3, s0t⟩⟩⟩⟩ <;>
    rcases s1 with _ | ⟨b0, _ | ⟨b1, _ | ⟨b2, _ | ⟨b3, s1t⟩⟩⟩⟩ <;>
    simp only [bmm, List.map, List.length_cons, List.length_nil] at h <;>
    first
    | cases h
    | (by_cases hab : a0 ≠ b0
       · rw [if_pos hab] at h
         cases h
       · rw [if_neg hab] at h
         by_cases hab2 : a2 ≠ b1
         · rw [if_pos hab2] at h
           cases h
         · rw [if_neg hab2] at h
           cases h
           intro v hv
           rcases List.mem_cons.mp hv with hv1 | hv2
           · exact hv1 ▸ h0 a0 (by simp)
           · rcases List.mem_cons.mp hv2 with hv3 | hv4
             · exact hv3 ▸ h0 a1 (by simp)
             · rcases List.mem_cons.mp hv4 with hv5 | hv6
               · exact hv5 ▸ h1 b2 (by simp)
               · cases hv6)

theorem addmm_nonneg {ms : MetaStack} {r : List Int}
    (hms : ∀ m ∈ ms, NN m.shape) (h : addmm ms = Res.ok r) : NN r := by
  rcases ms with _ | ⟨t0, _ | ⟨t1, _ | ⟨t2, rest⟩⟩⟩
  · simp [addmm] at h
  · simp [addmm] at h
  · simp [addmm] at h
  · rw [addmm, if_neg (by simp [MetaStack])] at h
    try dsimp only at h
    have hnn0 : NN t0.shape := hms t0 (by simp)
    have hnn1 : NN t1.shape := hms t1 (by simp)
    have hnn2 : NN t2.shape := hms t2 (by simp)
    split at h
    · refine binaryOp_nonneg ?_ h
      intro m hm
      rcases List.mem_cons.mp hm with h1 | h2
      · exact h1 ▸ hnn0
      · rcases List.mem_cons.mp h2 with h3 | h4
        · exact h3 ▸ hnn1
        · cases h4
    · revert h
      cases hmm : mm [t1, t2] with
      | ok s =>
        intro h
        simp only [bind_ok] at h
        refine binaryOp_nonneg ?_ h
        intro m hm
        rcases List.mem_cons.mp hm with h1 | h2
        · exact h1 ▸ hnn0
        · rcases List.mem_cons.mp h2 with h3 | h4
          · exact h3 ▸ mm_nonneg hnn1 hnn2 hmm
          · cases h4
      | err e =>
        intro h
        cases h
      | fatal =>
        intro h
        cases h

theorem concatOne_nonneg {dim1 : Nat} :
    ∀ {j : Nat} {a b r : List Int}, NN a → NN b →
      concatOne dim1 j a b = Res.ok r → NN r := by
  intro j a
  induction a generalizing j with
  | nil =>
    intro b r hna hnb h
    cases b with
    | nil =>
      cases h
      intro v hv
      cases hv
    | cons x xs => cases h
  | cons x xs ih =>
    intro b r hna hnb h
    cases b with
    | nil => cases h
    | cons y ys =>
      rw [concatOne] at h
      split at h
      · revert h
        cases hr : concatOne dim1 (j + 1) xs ys with
        | ok t =>
          intro h
          simp only [bind_ok, pure_eq_ok] at h
          cases h
          intro v hv
          rcases List.mem_cons.mp hv with h1 | h2
          · have hx : (0 : Int) ≤ x := hna x (by simp)
            have hy : (0 : Int) ≤ y := hnb y (by simp)
            omega
          · exact ih (fun w hw => hna w (by simp [hw])) (fun w hw => hnb w (by simp [hw])) hr v h2
        | err e =>
          intro h
          cases h
        | fatal =>
          intro h
          cases h
      · split at h
        · cases h
        · revert h
          cases hr : concatOne dim1 (j + 1) xs ys with
          | ok t =>
            intro h
            simp only [bind_ok, pure_eq_ok] at h
            cases h
            intro v hv
            rcases List.mem_cons.mp hv with h1 | h2
            · exact h1 ▸ hna x (by simp)
            · exact ih (fun w hw => hna w (by simp [hw])) (fun w hw => hnb w (by simp [hw])) hr v h2
          | err e =>
            intro h
            cases h
          | fatal =>
            intro h
            cases h

theorem concatFold_nonneg {dim1 inDims : Nat} :
    ∀ {rest : List VariableMeta} {shape r : List Int},
      (∀ m ∈ rest, NN m.shape) → NN shape →
      concatFold dim1 inDims rest shape = Res.ok r → NN r := by
  intro rest
  induction rest with
  | nil =>
    intro shape r _ hsh h
    cases h
    exact hsh
  | cons m ms ih =>
    intro shape r hrest hsh h
    rw [concatFold] at h
    split at h
    · cases h
    · revert h
      cases h1 : concatOne dim1 0 shape m.shape with
      | ok s =>
        intro h
        simp only [bind_ok] at h
        exact ih (fun w hw => hrest w (by simp [hw]))
          (concatOne_nonneg hsh (hrest m (by simp)) h1) h
      | err e =>
        intro h
        cases h
      | fatal =>
        intro h
        cases h

theorem fusedConcat_nonneg {ms : MetaStack} {dim : Int} {r : List Int}
    (hms : ∀ m ∈ ms, NN m.shape) (h : fusedConcat ms dim = Res.ok r) : NN r := by
  rcases ms with _ | ⟨m0, _ | ⟨m1, rest⟩⟩
  · cases h
  · cases h
    exact hms m0 (by simp)
  · simp only [fusedConcat] at h
    by_cases hcond : normDim dim (m0.shape.length : Int) < (m0.shape.length : Int) ∧
        0 ≤ normDim dim (m0.shape.length : Int)
    · rw [if_neg (not_not_intro hcond)] at h
      exact concatFold_nonneg (fun w hw => hms w (by simp [hw])) (hms m0 (by simp)) h
    · rw [if_pos hcond] at h
      cases h

theorem insertAt_mem {v x : Int} : ∀ {n : Nat} {l : List Int},
    v ∈ insertAt n x l → v = x ∨ v ∈ l := by
  intro n
  induction n with
  | zero =>
    intro l hv
    rcases List.mem_cons.mp hv with h1 | h2
    · exact Or.inl h1
    · exact Or.inr h2
  | succ k ih =>
    intro l hv
    cases l with
    | nil =>
      rcases List.mem_cons.mp hv with h1 | h2
      · exact Or.inl h1
      · cases h2
    | cons y ys =>
      rcases List.mem_cons.mp hv with h1 | h2
      · exact Or.inr (h1 ▸ List.mem_cons_self y ys)
      · rcases ih h2 with h3 | h4
        · exact Or.inl h3
        · exact Or.inr (List.mem_cons_of_mem y h4)

theorem fusedStack_nonneg {ms : MetaStack} {dim : Int} {r : List Int}
    (hms : ∀ m ∈ ms, NN m.shape) (h : fusedStack ms dim = Res.ok r) : NN r := by
  rcases ms with _ | ⟨m0, _ | ⟨m1, rest⟩⟩
  · cases h
  · cases h
    exact hms m0 (by simp)
  · simp only [fusedStack] at h
    by_cases hcond : (if dim < 0 then dim + (m0.shape.length : Int) + 1 else dim) <
        (m0.shape.length : Int) + 1 ∧
        0 ≤ (if dim < 0 then dim + (m0.shape.length : Int) + 1 else dim)
    · rw [if_neg (not_not_intro hcond)] at h
      revert h
      cases hchk : stackCheck m0.shape (m0 :: m1 :: rest) with
      | ok u =>
        intro h
        simp only [bind_ok, pure_eq_ok] at h
        cases h
        intro v hv
        rcases insertAt_mem hv with h1 | h2
        · exact h1 ▸ Int.natCast_nonneg _
        · exact hms m0 (by simp) v h2
      | err e =>
        intro h
        cases h
      | fatal =>
        intro h
        cases h
    · rw [if_pos hcond] at h
      cases h

theorem permuteLoop_nonneg {shape0 : List Int} {inDims : Int}
    (hsh : NN shape0) :
    ∀ {dims r : List Int}, permuteLoop shape0 inDims dims = Res.ok r → NN r := by
  intro dims
  induction dims with
  | nil =>
    intro r h
    cases h
    intro v hv
    cases hv
  | cons d rest ih =>
    intro r h
    rw [permuteLoop] at h
    split at h
    · cases h
    · split at h
      · cases h
      · revert h
        cases hg : getI shape0 d with
        | ok v0 =>
          intro h
          simp only [bind_ok] at h
          revert h
          cases hr : permuteLoop shape0 inDims rest with
          | ok t =>
            intro h
            simp only [bind_ok, pure_eq_ok] at h
            cases h
            intro v hv
            rcases List.mem_cons.mp hv with h1 | h2
            · exact h1 ▸ hsh v0 (getI_mem hg)
            · exact ih hr v h2
          | err e =>
            intro h
            cases h
          | fatal =>
            intro h
            cases h
        | err e =>
          intro h
          cases h
        | fatal =>
          intro h
          cases h

theorem permute_nonneg {ms : MetaStack} {r : List Int}
    (hms : ∀ m ∈ ms, NN m.shape) (h : permute ms = Res.ok r) : NN r := by
  rcases ms with _ | ⟨m0, _ | ⟨m1, _ | ⟨m2, rest⟩⟩⟩
  · simp [permute] at h
  · simp [permute] at h
  · rw [permute, if_neg (by simp)] at h
    by_cases hlen : (m0.shape.length : Int) ≠ (m1.intValue.length : Int)
    · rw [if_pos hlen] at h
      cases h
    · rw [if_neg hlen] at h
      exact permuteLoop_nonneg (hms m0 (by simp)) h
  · simp [permute] at h

theorem axisLen_final_nonneg {a step : Int} (ha : 0 < a) (hst : 0 < step) :
    0 ≤ Int.tdiv a step + (if Int.tmod a step ≠ 0 then 1 else 0) := by
  have hd := Int.tdiv_nonneg (le_of_lt ha) (le_of_lt hst)
  split_ifs <;> omega

theorem sliceAxisLen_nonneg {l s e step : Int} (hl : 0 ≤ l) (hst : 0 < step) :
    0 ≤ sliceAxisLen l s e step := by
  simp only [sliceAxisLen]
  split
  · exact le_refl (0 : Int)
  · generalize (if s ≤ -l then (0 : Int) else if -l < s ∧ s < 0 then s + l else s) = st1
    generalize (if e > l then l else if -l < e ∧ e < 0 then e + l else e) = en1
    split
    · exact le_refl (0 : Int)
    · rename_i h2
      exact axisLen_final_nonneg (by omega) hst

theorem slice_nonneg {selfShape sv : List Int} {d s e st : Int} {r : List Int}
    (hn : NN selfShape) (hst : 0 < st) (hd0 : 0 ≤ d) (hd : d.toNat < selfShape.length)
    (h : slice [⟨selfShape, sv⟩, ⟨[1], [d]⟩, ⟨[1], [s]⟩, ⟨[1], [e]⟩, ⟨[1], [st]⟩] =
      Res.ok r) : NN r := by
  rw [slice_eq_spec selfShape sv d s e st hd0 hd (by omega)] at h
  cases h
  intro v hv
  rcases List.mem_or_eq_of_mem_set hv with h1 | h2
  · exact hn v h1
  · exact h2 ▸ sliceAxisLen_nonneg (hn _ (List.get_mem _ _ _)) hst

theorem reshape_zero_entry_not_ok {selfShape sv ts target : List Int}
    (hz : (0 : Int) ∈ target) (r : List Int) :
    reshape [⟨selfShape, sv⟩, ⟨ts, target⟩] ≠ Res.ok r := by
  intro h
  rw [reshape, if_neg (by simp [MetaStack])] at h
  by_cases hmem : (-1 : Int) ∈ target
  · rcases first_split hmem with ⟨pre, post, heq, hnp⟩
    subst heq
    have hnp2 : ∀ v ∈ pre, v ≠ -1 := fun v hv hveq => hnp (hveq ▸ hv)
    by_cases hp : (-1 : Int) ∈ post
    · rw [reshapeLoop_fresh pre post hnp2 1 0 le_rfl, if_pos hp] at h
      simp at h
    · rw [reshapeLoop_fresh pre post hnp2 1 0 le_rfl, if_neg hp] at h
      simp only [bind_ok, one_mul] at h
      rw [List.prod_eq_zero hz] at h
      simp [tmodC] at h
  · have hnone : ∀ v ∈ target, v ≠ -1 := fun v hv hveq => hmem (hveq ▸ hv)
    rw [reshapeLoop_none target hnone 1 (-1) 0] at h
    simp only [bind_ok, one_mul] at h
    rw [List.prod_eq_zero hz] at h
    simp [tmodC] at h

theorem reshape_nonneg {selfShape sv ts target : List Int} {r : List Int}
    (hn : NN selfShape) (ht : ∀ v ∈ target, v = -1 ∨ 0 ≤ v)
    (h : reshape [⟨selfShape, sv⟩, ⟨ts, target⟩] = Res.ok r) : NN r := by
  by_cases hz : (0 : Int) ∈ target
  · exact absurd h (reshape_zero_entry_not_ok hz r)
  rw [reshape_eq_spec selfShape sv ts target hz] at h
  by_cases hc : 2 ≤ (target.filter (fun v => v = -1)).length
  · rw [reshapeSpec, if_pos hc] at h
    cases h
  · rw [reshapeSpec, if_neg hc] at h
    by_cases hdv : ¬((target.filter (fun v => v ≠ -1)).prod ∣ selfShape.prod)
    · rw [if_pos hdv] at h
      cases h
    · rw [if_neg hdv] at h
      cases h
      have hs0 : (0 : Int) ≤ selfShape.prod := List.prod_nonneg hn
      have hs1 : (0 : Int) ≤ (target.filter (fun v => v ≠ -1)).prod := by
        apply List.prod_nonneg
        intro a ha
        have hmem := List.mem_filter.mp ha
        rcases ht a hmem.1 with h1 | h2
        · exact absurd h1 (by simpa using hmem.2)
        · exact h2
      intro v hv
      rcases List.mem_map.mp hv with ⟨a, ha, hav⟩
      by_cases hm1 : a = -1
      · rw [← hav, if_pos hm1]
        exact Int.tdiv_nonneg hs0 hs1
      · rw [← hav, if_neg hm1]
        rcases ht a ha with h1 | h2
        · exact absurd h1 hm1
        · exact h2

theorem constantChunk_nonneg {shape sv : List Int} {chunks dim : Int}
    {rs : List (List Int)}
    (hn : NN shape) (hc : 0 < chunks)
    (hrem : ∀ h2 : (normDim dim (shape.length : Int)).toNat < shape.length,
      Int.tdiv (shape.get ⟨(normDim dim (shape.length : Int)).toNat, h2⟩ + chunks - 1) chunks *
        (chunks - 1) ≤ shape.get ⟨(normDim dim (shape.length : Int)).toNat, h2⟩)
    (h : constantChunk [⟨shape, sv⟩] chunks dim = Res.ok rs) :
    ∀ r ∈ rs, NN r := by
  by_cases hin : 0 ≤ normDim dim (shape.length : Int) ∧
      (normDim dim (shape.length : Int)).toNat < shape.length
  · rw [constantChunk_ok shape sv chunks dim (by omega) hin.2 hin.1] at h
    cases h
    intro r hr
    rcases List.mem_map.mp hr with ⟨i, hi, hir⟩
    intro v hv
    rw [← hir] at hv
    rcases List.mem_or_eq_of_mem_set hv with h1 | h2
    · exact hn v h1
    · subst h2
      have hsz : (0 : Int) ≤ shape.get ⟨(normDim dim (shape.length : Int)).toNat, hin.2⟩ :=
        hn _ (List.get_mem _ _ _)
      have hrm := hrem hin.2
      split
      · omega
      · exact Int.tdiv_nonneg (by omega) (le_of_lt hc)
  · have hcond : ¬(normDim dim (shape.length : Int) < (shape.length : Int) ∧
        0 ≤ normDim dim (shape.length : Int)) := by
      intro hcc
      apply hin
      constructor
      · exact hcc.2
      · omega
    simp only [constantChunk, List.length_cons, List.length_nil] at h
    rw [if_neg (by simp), if_pos hcond] at h
    cases h

/-- C9 amended: every shape an operator rule returns has only
non-negative dimensions, provided the rule inputs have non-negative
shapes and the data is non-degenerate in the ways the code assumes:
the slice step is positive, every explicit (non -1) reshape target
entry is non-negative, constant chunking satisfies
ceil(size/chunks) * (chunks - 1) <= size on the chunked axis, the
offsets length is at least the end-offset adjustment, the weight
second dimension is non-negative (and at least 8 for the row-wise
quantized embedding rule), and literal tensor dimensions are
non-negative.  Without these provisos the rules can return negative
dimensions. -/
theorem rules_nonneg_amended :
    (∀ (ms : MetaStack) (r : List Int), (∀ m ∈ ms, NN m.shape) →
      unarySameShape ms = Res.ok r → NN r) ∧
    (∀ (ms : MetaStack) (r : List Int), (∀ m ∈ ms, NN m.shape) →
      binaryOp ms = Res.ok r → NN r) ∧
    (∀ (m0 m1 : VariableMeta) (r : List Int), NN m0.shape → NN m1.shape →
      mm [m0, m1] = Res.ok r → NN r) ∧
    (∀ (m0 m1 : VariableMeta) (r : List Int), NN m0.shape → NN m1.shape →
      bmm [m0, m1] = Res.ok r → NN r) ∧
    (∀ (ms : MetaStack) (r : List Int), (∀ m ∈ ms, NN m.shape) →
      addmm ms = Res.ok r → NN r) ∧
    (∀ (ms : MetaStack) (dim : Int) (r : List Int), (∀ m ∈ ms, NN m.shape) →
      fusedConcat ms dim = Res.ok r → NN r) ∧
    (∀ (ms : MetaStack) (dim : Int) (r : List Int), (∀ m ∈ ms, NN m.shape) →
      fusedStack ms dim = Res.ok r → NN r) ∧
    (∀ (ms : MetaStack) (r : List Int), (∀ m ∈ ms, NN m.shape) →
      permute ms = Res.ok r → NN r) ∧
    (∀ (ms : MetaStack) (vals : List Int), listConstruct ms = Res.ok vals →
      NN [(vals.length : Int), 1]) ∧
    (∀ (dims r : List Int), NN dims →
      primConstant (ConstType.tensor dims) = Res.ok r → NN r) ∧
    (∀ (selfShape sv : List Int) (d s e st : Int) (r : List Int), NN selfShape → 0 < st →
      0 ≤ d → d.toNat < selfShape.length →
      slice [⟨selfShape, sv⟩, ⟨[1], [d]⟩, ⟨[1], [s]⟩, ⟨[1], [e]⟩, ⟨[1], [st]⟩] = Res.ok r →
      NN r) ∧
    (∀ (selfShape sv ts target r : List Int), NN selfShape →
      (∀ v ∈ target, v = -1 ∨ 0 ≤ v) →
      reshape [⟨selfShape, sv⟩, ⟨ts, target⟩] = Res.ok r → NN r) ∧
    (∀ (shape sv : List Int) (chunks dim : Int) (rs : List (List Int)), NN shape →
      0 < chunks →
      (∀ h2 : (normDim dim (shape.length : Int)).toNat < shape.length,
        Int.tdiv (shape.get ⟨(normDim dim (shape.length : Int)).toNat, h2⟩ + chunks - 1) chunks *
          (chunks - 1) ≤ shape.get ⟨(normDim dim (shape.length : Int)).toNat, h2⟩) →
      constantChunk [⟨shape, sv⟩] chunks dim = Res.ok rs → ∀ r ∈ rs, NN r) ∧
    (∀ (adj : Bool) (w0 w1 i0 o0 : Int) (wr av bv cv : List Int)
        (m4 m5 m6 m7 m8 : VariableMeta) (r : List Int),
      (if adj then (1 : Int) else 0) ≤ o0 → 0 ≤ w1 →
      (embeddingBag adj [⟨w0 :: w1 :: wr, av⟩, ⟨[i0], bv⟩, ⟨[o0], cv⟩, m4, m5, m6, m7, m8] =
          Res.ok r → NN r) ∧
      (8 ≤ w1 →
        embeddingBagByteRowwiseOffsets adj
            [⟨w0 :: w1 :: wr, av⟩, ⟨[i0], bv⟩, ⟨[o0], cv⟩, m4, m5, m6, m7, m8] = Res.ok r →
          NN r)) ∧
    (∀ (adj : Bool) (w0 w1 i0 i1 : Int) (wr av bv : List Int)
        (m3 m4 m5 m6 m7 m8 : VariableMeta) (r : List Int), 0 ≤ i0 → 0 ≤ w1 →
      embeddingBag adj [⟨w0 :: w1 :: wr, av⟩, ⟨[i0, i1], bv⟩, m3, m4, m5, m6, m7, m8] =
        Res.ok r → NN r) := by
  refine ⟨?_, ?_, ?_, ?_, ?_, ?_, ?_, ?_, ?_, ?_, ?_, ?_, ?_, ?_, ?_⟩
  · intro ms r hms h
    rcases ms with _ | ⟨m, _ | _⟩
    · cases h
    · cases h
      exact hms m (by simp)
    · cases h
  · intro ms r hms h
    exact binaryOp_nonneg hms h
  · intro m0 m1 r h0 h1 h
    exact mm_nonneg h0 h1 h
  · intro m0 m1 r h0 h1 h
    exact bmm_nonneg h0 h1 h
  · intro ms r hms h
    exact addmm_nonneg hms h
  · intro ms dim r hms h
    exact fusedConcat_nonneg hms h
  · intro ms dim r hms h
    exact fusedStack_nonneg hms h
  · intro ms r hms h
    exact permute_nonneg hms h
  · intro ms vals h
    intro v hv
    rcases List.mem_cons.mp hv with h1 | h2
    · exact h1 ▸ Int.natCast_nonneg _
    · rcases List.mem_cons.mp h2 with h3 | h4
      · omega
      · cases h4
  · intro dims r hn h
    cases h
    exact hn
  · intro selfShape sv d s e st r hn hst hd0 hd h
    exact slice_nonneg hn hst hd0 hd h
  · intro selfShape sv ts target r hn ht h
    exact reshape_nonneg hn ht h
  · intro shape sv chunks dim rs hn hc hrem h
    exact constantChunk_nonneg hn hc hrem h
  · intro adj w0 w1 i0 o0 wr av bv cv m4 m5 m6 m7 m8 r hadj hw
    constructor
    · intro h
      simp [embeddingBag, getI] at h
      rw [← h]
      intro v hv
      rcases List.mem_cons.mp hv with h1 | h2
      · subst h1
        split_ifs at hadj ⊢ <;> omega
      · rcases List.mem_cons.mp h2 with h3 | h4
        · omega
        · cases h4
    · intro hw8 h
      simp [embeddingBagByteRowwiseOffsets, getI] at h
      rw [← h]
      intro v hv
      rcases List.mem_cons.mp hv with h1 | h2
      · subst h1
        split_ifs at hadj ⊢ <;> omega
      · rcases List.mem_cons.mp h2 with h3 | h4
        · omega
        · cases h4
  · intro adj w0 w1 i0 i1 wr av bv m3 m4 m5 m6 m7 m8 r hi hw h
    simp [embeddingBag, getI] at h
    rw [← h]
    intro v hv
    rcases List.mem_cons.mp hv with h1 | h2
    · omega
    · rcases List.mem_cons.mp h2 with h3 | h4
      · omega
      · cases h4


/-- C9 amended witness: concrete non-negative outputs of the rules —
broadcasting [2,1,4] with [3,4], permuting [2,3,4] by [2,0,1],
reshaping product 24 to [-1,4], slicing [10] to the full range,
chunking 10 into 3 pieces and an embedding aggregation. -/
theorem rules_nonneg_amended_w :
    NN [2, 3, 4] ∧ NN [4, 2, 3] ∧ NN [6, 4] ∧ NN [10] ∧
      (∀ r ∈ [[4], [4], [2]], NN r) ∧ NN [5, 5] := by
  refine ⟨?_, ?_, ?_, ?_, ?_, ?_⟩
  · exact rules_nonneg_amended.2.1 [⟨[2, 1, 4], []⟩, ⟨[3, 4], []⟩] [2, 3, 4] (by decide) rfl
  · exact rules_nonneg_amended.2.2.2.2.2.2.2.1 [⟨[2, 3, 4], []⟩, ⟨[3, 1], [2, 0, 1]⟩]
      [4, 2, 3] (by decide) rfl
  · exact rules_nonneg_amended.2.2.2.2.2.2.2.2.2.2.2.1 [2, 3, 4] [] [2, 1] [-1, 4] [6, 4]
      (by decide) (by decide) (by decide)
  · exact rules_nonneg_amended.2.2.2.2.2.2.2.2.2.2.1 [10] [] 0 (-12) 100 1 [10]
      (by decide) (by decide) (by decide) (by decide) (by decide)
  · exact rules_nonneg_amended.2.2.2.2.2.2.2.2.2.2.2.2.1 [10] [] 3 0 [[4], [4], [2]]
      (by decide) (by decide) (by
        intro h2
        show ((10 : Int) + 3 - 1).tdiv 3 * (3 - 1) ≤ (10 : Int)
        decide) rfl
  · exact (rules_nonneg_amended.2.2.2.2.2.2.2.2.2.2.2.2.2.1 true 4 5 3 6 [] [] [] []
      ⟨[1], [0]⟩ ⟨[1], [0]⟩ ⟨[1], [0]⟩ ⟨[1], [0]⟩ ⟨[1], [0]⟩ [5, 5]
      (by decide) (by decide)).1 rfl

end GlowSI
